import Mathlib

/-!
# Verification of the alive-gallery journaling application

Shallow embedding of `app.py`: the record store, the id allocator, the
derivation engine (dream selection, milestone selection, timeline grouping)
and the by-id request handlers (detail / edit / delete), together with
theorems settling the specification claims about them.

Modelling conventions:
* A JSON record is an `Entry` whose fields are all `Option`-valued; `none`
  models an absent key (`dict.get` / `dict.setdefault` read as `Option.getD`).
* Python's stable `sorted(l, key=k)` is modelled by `List.insertionSort r`
  where `r a b` is the total preorder `k a ≤ k b` (`k b ≤ k a` for
  `reverse=True`); a stable sort is uniquely determined by its total
  preorder, so any stable sort models `sorted` faithfully.
* Python string primitives (`lower`, `strip`, `split`, slicing, `len`,
  lexicographic comparison) are implemented over the character list
  `String.data`, which matches Python's code-point semantics.  `lower` and
  `strip` are modelled on their ASCII behaviour; the application's keyword
  sets, categories and dates are ASCII, where the two agree with Python.
-/

namespace AliveGallery

/-! ## Python string primitives -/

/-- Lexicographic strict comparison of character lists by code point —
Python's `str < str` restricted to the characters of the two strings. -/
def listLtB : List Char → List Char → Bool
  | [], [] => false
  | [], _ :: _ => true
  | _ :: _, [] => false
  | a :: as, b :: bs =>
    if a < b then true else if b < a then false else listLtB as bs

/-- `listLtB` decides the lexicographic order on `List Char`. -/
theorem listLtB_iff : ∀ as bs : List Char, listLtB as bs = true ↔ as < bs
  | [], [] => by
    refine iff_of_false (by simp [listLtB]) (fun h => ?_)
    cases h
  | [], b :: bs => by
    refine iff_of_true ?_ (List.nil_lt_cons b bs)
    rfl
  | a :: as, [] => by
    refine iff_of_false (by simp [listLtB]) (fun h => ?_)
    cases h
  | a :: as, b :: bs => by
    show (if a < b then true else if b < a then false else listLtB as bs) = true ↔ _
    rcases lt_trichotomy a b with hab | hab | hab
    · rw [if_pos hab]
      exact iff_of_true rfl (List.Lex.rel hab)
    · subst hab
      rw [if_neg (lt_irrefl a), if_neg (lt_irrefl a), listLtB_iff as bs]
      constructor
      · exact fun h => List.Lex.cons h
      · intro h
        cases h with
        | cons h => exact h
        | rel h => exact absurd h (lt_irrefl a)
    · rw [if_neg (not_lt_of_gt hab), if_pos hab]
      refine iff_of_false (fun h => by cases h) (fun h => ?_)
      cases h with
      | cons hrest => exact absurd hab (lt_irrefl a)
      | rel h => exact absurd hab (not_lt_of_gt h)

/-- Executable strict comparison of strings (Python `<`). -/
def strLtB (a b : String) : Bool :=
  listLtB a.data b.data

/-- Executable non-strict comparison of strings (Python `<=`). -/
def strLeB (a b : String) : Bool :=
  !(listLtB b.data a.data)

theorem strLtB_iff (a b : String) : strLtB a b = true ↔ a < b := by
  rw [String.lt_iff_toList_lt]
  exact listLtB_iff a.data b.data

theorem strLeB_iff (a b : String) : strLeB a b = true ↔ a ≤ b := by
  have h1 : strLeB a b = true ↔ ¬ (strLtB b a = true) := by
    show (!(strLtB b a)) = true ↔ _
    simp
  rw [h1]
  exact (not_congr (strLtB_iff b a)).trans not_lt

/-- Python `str.lower()` (ASCII case mapping; the application's keyword
sets, category names and dates are ASCII). -/
def pyLower (s : String) : String :=
  ⟨s.data.map Char.toLower⟩

/-- A character Python's `str.strip()` removes: the ASCII whitespace
characters (tab, LF, VT, FF, CR, space). -/
def isPySpace (c : Char) : Bool :=
  c == ' ' || c == '\t' || c == '\n' || c == '\r' || c == '\x0b' || c == '\x0c'

/-- Python `str.strip()` with no argument: remove leading and trailing
whitespace. -/
def pyStrip (s : String) : String :=
  ⟨((s.data.dropWhile isPySpace).reverse.dropWhile isPySpace).reverse⟩

/-- Python `s[:n]` on strings (code-point slicing). -/
def pyTake (s : String) (n : Nat) : String :=
  ⟨s.data.take n⟩

/-- Python `s[n:]` on strings (code-point slicing). -/
def pyDrop (s : String) (n : Nat) : String :=
  ⟨s.data.drop n⟩

/-- Python `len(s)`: the number of code points. -/
def pyLen (s : String) : Nat :=
  s.data.length

/-- Accumulator pass of `pySplitComma`. -/
def splitCommaAux : List Char → List Char → List (List Char)
  | [], acc => [acc.reverse]
  | ',' :: rest, acc => acc.reverse :: splitCommaAux rest []
  | c :: rest, acc => splitCommaAux rest (c :: acc)

/-- Python `s.split(",")`: split on every comma, keeping empty pieces
(`"".split(",") == [""]`). -/
def pySplitComma (s : String) : List String :=
  (splitCommaAux s.data []).map (fun cs => ⟨cs⟩)

/-- Python `int(s)` on a string: strip whitespace, optional single sign,
non-empty run of decimal digits; `none` models `ValueError`.  (Python
additionally accepts underscore digit separators and non-ASCII digits;
those lexical forms never occur in this application's data and are not
modelled.) -/
def pyIntOfString (s : String) : Option Int :=
  let signed : Int × List Char :=
    match (pyStrip s).data with
    | '-' :: cs => (-1, cs)
    | '+' :: cs => (1, cs)
    | cs => (1, cs)
  if signed.2 ≠ [] ∧ signed.2.all Char.isDigit then
    some (signed.1 *
      signed.2.foldl (fun acc c => acc * 10 + ((c.toNat : Int) - ('0'.toNat : Int))) 0)
  else
    none

/-! ## Data model and record store -/

/-- A value stored under the `dream_progress` key.  The application writes
either an integer (the load default and reflection entries) or a raw form
string (the new/edit handlers), so the field is an int/string sum. -/
inductive ProgVal where
  | int (n : Int)
  | str (s : String)
deriving DecidableEq, Repr

/-- One stored record (`entries.json` element).  Every field is optional,
mirroring a JSON object that may lack keys; `none` models an absent key. -/
structure Entry where
  id : Option Int := none
  title : Option String := none
  date : Option String := none
  mood : Option String := none
  category : Option String := none
  subcategory : Option String := none
  image_path : Option String := none
  notes : Option String := none
  tags : Option (List String) := none
  created_at : Option String := none
  dream_theme : Option String := none
  dream_priority : Option String := none
  dream_target_date : Option String := none
  dream_progress : Option ProgVal := none
deriving DecidableEq, Repr

/-- The persistent store (`entries.json`): the file may be absent
(`not os.path.exists`), unparseable (`json.JSONDecodeError`), or a parseable
file holding a list of records.  JSON serialisation of a record list parses
back to the same list, so `save_entries` produces `good entries` directly. -/
inductive Store where
  | absent
  | malformed
  | good (entries : List Entry)
deriving DecidableEq, Repr

/-- The `e.setdefault(...)` block of `load_entries` (`app.py` lines 33-42):
exactly the keys `category`, `subcategory`, `tags` and the four dream fields
are backfilled; no other key is touched. -/
def ensure_entry_keys (e : Entry) : Entry :=
  { e with
    category := some (e.category.getD "Art")
    subcategory := some (e.subcategory.getD "")
    tags := some (e.tags.getD [])
    dream_theme := some (e.dream_theme.getD "")
    dream_priority := some (e.dream_priority.getD "")
    dream_target_date := some (e.dream_target_date.getD "")
    dream_progress := some (e.dream_progress.getD (.int 0)) }

/-- `load_entries` (`app.py` lines 23-44): empty list when the file is absent
or unparseable, otherwise the parsed records with the new keys backfilled. -/
def load_entries : Store → List Entry
  | .absent => []
  | .malformed => []
  | .good entries => entries.map ensure_entry_keys

/-- `save_entries` (`app.py` lines 47-49): overwrites the file with the full
serialised sequence. -/
def save_entries (entries : List Entry) : Store :=
  .good entries

/-- `next_id` (`app.py` lines 52-56): `1` when empty, else
`max(e.get("id", 0) for e in entries) + 1` (Python's `max` of a non-empty
list is a left fold of binary `max`). -/
def next_id (entries : List Entry) : Int :=
  match entries.map (fun e => e.id.getD 0) with
  | [] => 1
  | x :: xs => xs.foldl max x + 1

/-! ## Dream selection -/

/-- The gallery-wide dream keyword set (`app.py` line 60). -/
def dream_keywords : List String :=
  ["dream", "dreams", "goal", "goals", "manifest", "manifestation"]

/-- The loop body of `compute_dream_entries` (`app.py` lines 62-69):
`(e.get("category") or "").lower()` against the broad category set, else the
keyword set intersected with the lowercased tags. -/
def is_gallery_dream (e : Entry) : Bool :=
  if pyLower (e.category.getD "") ∈ ["goal", "goals", "dreams", "dreamboard"] then true
  else dream_keywords.any (fun k => decide (k ∈ (e.tags.getD []).map pyLower))

/-- `sorted(..., key=lambda e: e.get("date", ""), reverse=True)` as a total
preorder on entries. -/
def date_desc (a b : Entry) : Prop :=
  b.date.getD "" ≤ a.date.getD ""

instance : DecidableRel date_desc := fun a b =>
  decidable_of_iff _ (strLeB_iff (b.date.getD "") (a.date.getD ""))

/-- `compute_dream_entries` (`app.py` lines 59-71): the selected entries,
newest date first. -/
def compute_dream_entries (entries : List Entry) : List Entry :=
  List.insertionSort date_desc (entries.filter is_gallery_dream)

/-- The dreamboard view's keyword set (`app.py` line 576) — note that unlike
`dream_keywords` it does NOT contain `"dreams"`. -/
def dreamboard_keywords : List String :=
  ["dream", "goal", "goals", "manifest", "manifestation"]

/-- The selection loop of the `dreamboard` handler (`app.py` lines 578-584):
category in the narrow set `{goal, goals}`, or a tag in
`dreamboard_keywords`. -/
def is_dreamboard_dream (e : Entry) : Bool :=
  decide (pyLower (e.category.getD "") ∈ ["goal", "goals"]) ||
    dreamboard_keywords.any (fun k => decide (k ∈ (e.tags.getD []).map pyLower))

/-- The entries selected onto the dreamboard (step 1 of the `dreamboard`
handler), before the optional theme/priority filters. -/
def dreamboard_selected (entries : List Entry) : List Entry :=
  entries.filter is_dreamboard_dream

/-! ## Milestones -/

/-- The progress coercion of the `milestones` handler
(`int(e.get("dream_progress") or 0)` with `(TypeError, ValueError)` mapped
to `0`, `app.py` lines 658-662 and 670-674).  An absent key gives `None`,
which `or 0` turns into `0`; an empty string is falsy and also becomes `0`;
any other string goes through `int`. -/
def milestone_progress (e : Entry) : Int :=
  match e.dream_progress with
  | none => 0
  | some (.int n) => n
  | some (.str s) => if s = "" then 0 else (pyIntOfString s).getD 0

/-- `is_milestone` (`app.py` lines 657-665): progress at least 80, or the
lowercased tags contain `"milestone"`. -/
def is_milestone (e : Entry) : Bool :=
  decide (80 ≤ milestone_progress e) ||
    decide ("milestone" ∈ (e.tags.getD []).map pyLower)

/-- The milestone sort key `(-prog, target)` (`app.py` lines 669-676) as a
total preorder: higher progress first, ties broken by target date
ascending. -/
def milestone_le (a b : Entry) : Prop :=
  milestone_progress b < milestone_progress a ∨
    (milestone_progress a = milestone_progress b ∧
      a.dream_target_date.getD "" ≤ b.dream_target_date.getD "")

instance : DecidableRel milestone_le := fun a b =>
  haveI : Decidable (a.dream_target_date.getD "" ≤ b.dream_target_date.getD "") :=
    decidable_of_iff _ (strLeB_iff _ _)
  by unfold milestone_le; infer_instance

/-- The `milestones` handler's entry list (`app.py` lines 667-678). -/
def milestone_entries (entries : List Entry) : List Entry :=
  List.insertionSort milestone_le (entries.filter is_milestone)

/-! ## Timeline -/

/-- `e.get("date", "")` / `e.get("date")`-truthiness helper. -/
def dateOf (e : Entry) : String :=
  e.date.getD ""

/-- `d[:4]` of an entry's date. -/
def yearOf (e : Entry) : String :=
  pyTake (dateOf e) 4

/-- `d[5:7]` of an entry's date. -/
def monthOf (e : Entry) : String :=
  pyTake (pyDrop (dateOf e) 5) 2

/-- `calendar.month_name` as a list: index 0 is the empty string, indices
1-12 are the English month names. -/
def month_names : List String :=
  ["", "January", "February", "March", "April", "May", "June",
   "July", "August", "September", "October", "November", "December"]

/-- `calendar.month_name[int(month)]` (`app.py` lines 218-219).  A
non-numeric or out-of-range month string would raise in Python; it is mapped
to `""` here and never arises for well-formed `YYYY-MM-DD` dates. -/
def month_name (month : String) : String :=
  month_names.getD ((pyIntOfString month).getD 0).toNat ""

/-- One month block of the timeline view-model (`app.py` lines 220-224). -/
structure MonthBlock where
  month : String
  month_name : String
  entries : List Entry
deriving DecidableEq, Repr

/-- One year block of the timeline view-model (`app.py` lines 226-229). -/
structure YearBlock where
  year : String
  months : List MonthBlock
deriving DecidableEq, Repr

/-- `sorted(keys, reverse=True)` as a total preorder on strings. -/
def string_desc (a b : String) : Prop :=
  b ≤ a

instance : DecidableRel string_desc := fun a b =>
  decidable_of_iff _ (strLeB_iff b a)

/-- The entries the timeline grouping loop actually appends (`app.py` lines
192-209, unfiltered-category path): entries with a truthy `date`, sorted
newest first, minus those with `len(d) < 7` (skipped by the loop). -/
def timeline_dated (entries : List Entry) : List Entry :=
  (List.insertionSort date_desc
      (entries.filter (fun e => decide (dateOf e ≠ "")))).filter
    (fun e => decide (7 ≤ pyLen (dateOf e)))

/-- The `timeline_dated` entries falling in year `y` (the contents of
`grouped[y]`, in append order). -/
def timeline_in_year (entries : List Entry) (y : String) : List Entry :=
  (timeline_dated entries).filter (fun e => decide (yearOf e = y))

/-- The month block for year `y`, month `m` (`app.py` lines 217-224): the
zero-padded month string, its calendar name, and the grouped entries in
append order. -/
def timeline_month_block (entries : List Entry) (y m : String) : MonthBlock :=
  { month := m
    month_name := month_name m
    entries := (timeline_in_year entries y).filter (fun e => decide (monthOf e = m)) }

/-- The year block for year `y` (`app.py` lines 213-229): the months seen
under `y`, sorted descending. -/
def timeline_year_block (entries : List Entry) (y : String) : YearBlock :=
  { year := y
    months :=
      (List.insertionSort string_desc
          ((timeline_in_year entries y).map monthOf).dedup).map
        (timeline_month_block entries y) }

/-- `timeline_years` (`app.py` lines 201-229, unfiltered-category path).
The code groups `timeline_dated` into nested dicts `{year: {month: [..]}}`
and then sorts both key sets descending; since the dict keys get sorted and
each month list is appended in `timeline_dated` iteration order, the result
equals: the descending-sorted distinct years, each holding its
descending-sorted distinct months, each holding the `timeline_dated`
sublist with that year and month. -/
def timeline_years (entries : List Entry) : List YearBlock :=
  (List.insertionSort string_desc ((timeline_dated entries).map yearOf).dedup).map
    (timeline_year_block entries)

/-! ## By-id request handlers -/

/-- A handler's outcome, as far as the claims are concerned: the 404
`("Entry not found", 404)` response, a rendered page, or a redirect to a
named route. -/
inductive Response where
  | notFound
  | page (e : Entry)
  | redirect (target : String)
deriving DecidableEq, Repr

/-- `entry_detail` (`app.py` lines 446-452): first entry whose
`e.get("id")` equals the requested id, else the 404 response. -/
def entry_detail (s : Store) (entry_id : Int) : Response :=
  match (load_entries s).find? (fun e => e.id == some entry_id) with
  | none => .notFound
  | some e => .page e

/-- One edit-form submission (`request.form` / `request.files` of the edit
POST).  `""` models both an absent and an empty text field where the code
treats them alike (falsy / default `""`); `category` keeps the
absent-vs-present distinction because its default is `"Art"`. -/
structure EditForm where
  title : String
  date : String := ""
  mood : String := ""
  category : Option String := none
  subcategory : String := ""
  notes : String := ""
  tags : String := ""
  dream_priority : String := ""
  dream_progress : String := ""
  dream_target_date : String := ""
  dream_theme : String := ""
  new_image : Option String := none
deriving Repr

/-- `[t.strip() for t in raw_tags.split(",") if t.strip()]`. -/
def split_tags (raw : String) : List String :=
  ((pySplitComma raw).map pyStrip).filter (fun t => decide (t ≠ ""))

/-- The `entry.setdefault` lines of `edit_entry` (`app.py` lines 463-465). -/
def edit_setdefaults (e : Entry) : Entry :=
  { e with
    category := some (e.category.getD "Art")
    subcategory := some (e.subcategory.getD "")
    tags := some (e.tags.getD []) }

/-- The `entry.update({...})` dict of the edit POST (`app.py` lines
471-502): every listed key is overwritten; `id` and `created_at` are not in
the dict and keep their values. -/
def update_entry (e : Entry) (f : EditForm) : Entry :=
  { e with
    title := some f.title
    date := some (if f.date = "" then e.date.getD "" else f.date)
    mood := some f.mood
    category := some (f.category.getD "Art")
    subcategory := some f.subcategory
    image_path := some (f.new_image.getD (e.image_path.getD ""))
    notes := some f.notes
    tags := some (split_tags f.tags)
    dream_priority := some (pyStrip f.dream_priority)
    dream_progress := some (.str (pyStrip f.dream_progress))
    dream_target_date := some (pyStrip f.dream_target_date)
    dream_theme := some (pyStrip f.dream_theme) }

/-- In-place mutation of the first entry matching the id (the
`next(e for e in entries if e.get("id") == entry_id)` object is an element
of `entries`, so updating it updates the list). -/
def edit_first (entries : List Entry) (entry_id : Int) (f : EditForm) : List Entry :=
  match entries with
  | [] => []
  | e :: rest =>
    if e.id = some entry_id then update_entry (edit_setdefaults e) f :: rest
    else e :: edit_first rest entry_id f

/-- The edit POST handler (`app.py` lines 455-505): 404 without saving when
no entry has the id, else update-in-place, save, redirect to the detail
page. -/
def edit_entry (s : Store) (entry_id : Int) (f : EditForm) : Store × Response :=
  let entries := load_entries s
  if entries.any (fun e => e.id == some entry_id) then
    (save_entries (edit_first entries entry_id f), .redirect "entry_detail")
  else
    (s, .notFound)

/-- `delete_entry` (`app.py` lines 518-523): keep exactly the entries whose
`e.get("id")` differs from the id, save, redirect — no not-found branch. -/
def delete_entry (s : Store) (entry_id : Int) : Store × Response :=
  (save_entries ((load_entries s).filter (fun e => e.id != some entry_id)),
   .redirect "index")

/-! ## Totality and transitivity of the sort preorders -/

instance : IsTotal Entry date_desc :=
  ⟨fun a b => le_total (b.date.getD "") (a.date.getD "")⟩

instance : IsTrans Entry date_desc :=
  ⟨fun _ _ _ hab hbc => le_trans hbc hab⟩

instance : IsTotal String string_desc :=
  ⟨fun a b => le_total b a⟩

instance : IsTrans String string_desc :=
  ⟨fun _ _ _ hab hbc => le_trans hbc hab⟩

instance : IsTotal Entry milestone_le := by
  constructor
  intro a b
  rcases lt_trichotomy (milestone_progress a) (milestone_progress b) with h | h | h
  · exact Or.inr (Or.inl h)
  · rcases le_total (a.dream_target_date.getD "") (b.dream_target_date.getD "") with ht | ht
    · exact Or.inl (Or.inr ⟨h, ht⟩)
    · exact Or.inr (Or.inr ⟨h.symm, ht⟩)
  · exact Or.inl (Or.inl h)

instance : IsTrans Entry milestone_le := by
  constructor
  intro a b c hab hbc
  rcases hab with h1 | ⟨h1, h1t⟩ <;> rcases hbc with h2 | ⟨h2, h2t⟩
  · exact Or.inl (lt_trans h2 h1)
  · exact Or.inl (h2 ▸ h1)
  · refine Or.inl ?_
    rw [h1]
    exact h2
  · exact Or.inr ⟨h1.trans h2, le_trans h1t h2t⟩

/-! ## Concrete test fixtures named by the claims -/

/-- An entry whose only dream signal is the tag `"dreams"`. -/
def dreams_tag_entry : Entry :=
  { category := some "Art", tags := some ["dreams"] }

/-- An entry whose category lowercases to `"dreams"`, with no tags. -/
def dreams_cat_entry : Entry :=
  { category := some "Dreams", tags := some [] }

/-- A record with every key absent (a maximally legacy record). -/
def blank_entry : Entry :=
  {}

/-- Fixture entries with dream progress 90 / 50 / 85 and no milestone tags. -/
def progress90_entry : Entry :=
  { id := some 1, dream_progress := some (.int 90) }

def progress50_entry : Entry :=
  { id := some 2, dream_progress := some (.int 50) }

def progress85_entry : Entry :=
  { id := some 3, dream_progress := some (.int 85) }

/-- Fixture entries with ids 3 and 7. -/
def id3_entry : Entry :=
  { id := some 3 }

def id7_entry : Entry :=
  { id := some 7 }

/-- Fixture entries dated 2024-03-01, 2024-03-15 and 2023-12-01. -/
def march1_entry : Entry :=
  { id := some 1, date := some "2024-03-01" }

def march15_entry : Entry :=
  { id := some 2, date := some "2024-03-15" }

def december_entry : Entry :=
  { id := some 3, date := some "2023-12-01" }

/-- A store with a single entry of id 1, for the missing-id handler
scenarios. -/
def one_entry_store : Store :=
  Store.good [march1_entry]

/-- A minimal edit-form submission. -/
def sample_form : EditForm :=
  { title := "Edited", tags := " a, b ,, ", category := some "Music" }

/-- The dreamboard selection rule as the claim states it (spec wording, for
comparison against the code's `is_dreamboard_dream`): lowercased category in
`{goal, goals}`, or some lowercased tag in the same six-keyword set
`dream_keywords` used by the gallery view. -/
def claimed_dreamboard_rule (e : Entry) : Prop :=
  pyLower (e.category.getD "") ∈ ["goal", "goals"] ∨
    ∃ t ∈ (e.tags.getD []).map pyLower, t ∈ dream_keywords

/-! ## Helper lemmas -/

/-- The load-time defaulting is idempotent. -/
theorem ensure_entry_keys_idem (e : Entry) :
    ensure_entry_keys (ensure_entry_keys e) = ensure_entry_keys e := by
  simp [ensure_entry_keys]

/-- Every entry produced by `load_entries` is a fixed point of the
defaulting. -/
theorem loaded_ensure_eq {s : Store} {e : Entry} (h : e ∈ load_entries s) :
    ensure_entry_keys e = e := by
  cases s with
  | absent => cases h
  | malformed => cases h
  | good entries =>
    rcases List.mem_map.mp h with ⟨r, _, rfl⟩
    exact ensure_entry_keys_idem r

/-- The seed of a `foldl max` bounds itself. -/
theorem le_foldl_max_init (x : Int) (xs : List Int) : x ≤ xs.foldl max x := by
  induction xs generalizing x with
  | nil => exact le_refl x
  | cons y ys ih => exact le_trans (le_max_left x y) (ih (max x y))

/-- Every member of the list bounds a `foldl max`. -/
theorem le_foldl_max_mem (x : Int) (xs : List Int) :
    ∀ y ∈ xs, y ≤ xs.foldl max x := by
  induction xs generalizing x with
  | nil => intro y hy; cases hy
  | cons z zs ih =>
    intro y hy
    rcases List.mem_cons.mp hy with rfl | hy
    · exact le_trans (le_max_right x y) (le_foldl_max_init (max x y) zs)
    · exact ih (max x z) y hy

/-- A `foldl max` is the seed or one of the elements. -/
theorem foldl_max_mem (x : Int) (xs : List Int) :
    xs.foldl max x = x ∨ xs.foldl max x ∈ xs := by
  induction xs generalizing x with
  | nil => exact Or.inl rfl
  | cons y ys ih =>
    rcases ih (max x y) with h | h
    · rcases max_choice x y with hm | hm
      · exact Or.inl (by rw [List.foldl_cons, h, hm])
      · exact Or.inr (by rw [List.foldl_cons, h, hm]; exact List.mem_cons_self y ys)
    · exact Or.inr (List.mem_cons_of_mem y h)

/-- On a non-empty list, `next_id` is one of the (0-defaulted) ids plus
one. -/
theorem next_id_exists_mem (x : Entry) (xs : List Entry) :
    ∃ e ∈ x :: xs, next_id (x :: xs) = e.id.getD 0 + 1 := by
  have hnext : next_id (x :: xs) =
      (xs.map (fun e => e.id.getD 0)).foldl max (x.id.getD 0) + 1 := rfl
  rcases foldl_max_mem (x.id.getD 0) (xs.map (fun e => e.id.getD 0)) with h | h
  · exact ⟨x, List.mem_cons_self x xs, by rw [hnext, h]⟩
  · rcases List.mem_map.mp h with ⟨e, he, hev⟩
    exact ⟨e, List.mem_cons_of_mem x he, by rw [hnext, hev]⟩

/-- On a non-empty list, `next_id` strictly bounds every (0-defaulted)
id. -/
theorem next_id_ub (x : Entry) (xs : List Entry) :
    ∀ e ∈ x :: xs, e.id.getD 0 + 1 ≤ next_id (x :: xs) := by
  intro e he
  have hnext : next_id (x :: xs) =
      (xs.map (fun e => e.id.getD 0)).foldl max (x.id.getD 0) + 1 := rfl
  rw [hnext]
  have : e.id.getD 0 ≤ (xs.map (fun e => e.id.getD 0)).foldl max (x.id.getD 0) := by
    rcases List.mem_cons.mp he with rfl | he
    · exact le_foldl_max_init _ _
    · exact le_foldl_max_mem _ _ _ (List.mem_map_of_mem (fun e => e.id.getD 0) he)
  omega

/-- A `foldl max` over zeros from a zero seed is zero. -/
theorem foldl_max_zeros (xs : List Int) (h : ∀ y ∈ xs, y = 0) :
    xs.foldl max (0 : Int) = 0 := by
  induction xs with
  | nil => rfl
  | cons y ys ih =>
    have hy : y = 0 := h y (List.mem_cons_self y ys)
    have hmax : max (0 : Int) y = 0 := by rw [hy]; exact max_self 0
    rw [List.foldl_cons, hmax]
    exact ih (fun z hz => h z (List.mem_cons_of_mem y hz))

/-- Saving a list of already-defaulted entries and loading it back is the
identity. -/
theorem load_save_of_ensured (l : List Entry)
    (h : ∀ e ∈ l, ensure_entry_keys e = e) :
    load_entries (save_entries l) = l := by
  show l.map ensure_entry_keys = l
  exact (List.map_congr_left h).trans (List.map_id l)

/-- `is_gallery_dream` in the claim's terms. -/
theorem is_gallery_dream_iff (e : Entry) :
    is_gallery_dream e = true ↔
      (pyLower (e.category.getD "") ∈ ["goal", "goals", "dreams", "dreamboard"] ∨
        ∃ t ∈ (e.tags.getD []).map pyLower, t ∈ dream_keywords) := by
  unfold is_gallery_dream
  by_cases hc : pyLower (e.category.getD "") ∈ ["goal", "goals", "dreams", "dreamboard"]
  · rw [if_pos hc]
    exact iff_of_true rfl (Or.inl hc)
  · rw [if_neg hc]
    rw [List.any_eq_true]
    constructor
    · rintro ⟨k, hk, hkt⟩
      exact Or.inr ⟨k, of_decide_eq_true hkt, hk⟩
    · rintro (h | ⟨t, ht, htk⟩)
      · exact absurd h hc
      · exact ⟨t, htk, decide_eq_true ht⟩

/-- `is_dreamboard_dream` in the claim's terms. -/
theorem is_dreamboard_dream_iff (e : Entry) :
    is_dreamboard_dream e = true ↔
      (pyLower (e.category.getD "") ∈ ["goal", "goals"] ∨
        ∃ t ∈ (e.tags.getD []).map pyLower, t ∈ dreamboard_keywords) := by
  unfold is_dreamboard_dream
  rw [Bool.or_eq_true, List.any_eq_true, decide_eq_true_eq]
  constructor
  · rintro (h | ⟨k, hk, hkt⟩)
    · exact Or.inl h
    · exact Or.inr ⟨k, of_decide_eq_true hkt, hk⟩
  · rintro (h | ⟨t, ht, htk⟩)
    · exact Or.inl h
    · exact Or.inr ⟨t, htk, decide_eq_true ht⟩

/-- `is_milestone` in the claim's terms. -/
theorem is_milestone_iff (e : Entry) :
    is_milestone e = true ↔
      (80 ≤ milestone_progress e ∨ "milestone" ∈ (e.tags.getD []).map pyLower) := by
  unfold is_milestone
  rw [Bool.or_eq_true, decide_eq_true_eq, decide_eq_true_eq]

/-! ## Claims -/

/-- C8: `load_entries` returns the empty sequence in both failure cases —
the store file absent and the file content unparseable — and (being a total
function into entry lists in this model) surfaces no error to the caller in
either case. -/
theorem C8_load_failure_empty :
    load_entries Store.absent = [] ∧ load_entries Store.malformed = [] :=
  ⟨rfl, rfl⟩

/-- C6: saving a freshly loaded collection and loading it again yields the
same collection as the first load, for every store — the load-time
defaulting is idempotent. -/
theorem C6_load_save_load :
    ∀ s : Store, load_entries (save_entries (load_entries s)) = load_entries s := by
  intro s
  exact load_save_of_ensured (load_entries s) (fun e he => loaded_ensure_eq he)

/-- C2 counterexample: loading a store holding one record with every key
absent yields an entry whose `title` and `created_at` fields are still
absent — `load_entries` does not backfill them, contradicting the claim
that all fields (including title, date, mood, notes, image_path,
created_at) are present after load. -/
theorem C2_counterexample :
    (load_entries (Store.good [blank_entry])).map (fun e => e.title) = [none] ∧
      (load_entries (Store.good [blank_entry])).map (fun e => e.created_at) = [none] :=
  ⟨rfl, rfl⟩

/-- C2 (amended): for every stored collection, each loaded entry has
`category`, `subcategory`, `tags`, `dream_theme`, `dream_priority`,
`dream_target_date` and `dream_progress` present, equal to the stored value
when present and to the default (`"Art"`, `""`, `[]`, `""`, `""`, `""`, `0`)
when absent; the remaining fields (`title`, `date`, `mood`, `notes`,
`image_path`, `created_at`) are passed through unchanged and are NOT
backfilled. -/
theorem C2_load_defaults (raws : List Entry) (i : Nat) (r e : Entry)
    (hr : raws[i]? = some r)
    (he : (load_entries (Store.good raws))[i]? = some e) :
    e.category = some (r.category.getD "Art") ∧
    e.subcategory = some (r.subcategory.getD "") ∧
    e.tags = some (r.tags.getD []) ∧
    e.dream_theme = some (r.dream_theme.getD "") ∧
    e.dream_priority = some (r.dream_priority.getD "") ∧
    e.dream_target_date = some (r.dream_target_date.getD "") ∧
    e.dream_progress = some (r.dream_progress.getD (.int 0)) ∧
    e.title = r.title ∧ e.date = r.date ∧ e.mood = r.mood ∧
    e.notes = r.notes ∧ e.image_path = r.image_path ∧
    e.created_at = r.created_at := by
  have : (load_entries (Store.good raws))[i]? = some (ensure_entry_keys r) := by
    show (raws.map ensure_entry_keys)[i]? = some (ensure_entry_keys r)
    rw [List.getElem?_map, hr, Option.map_some']
  rw [this] at he
  cases he
  simp [ensure_entry_keys]

/-- Witness for C2: the blank record, loaded, gets exactly the seven
defaults. -/
theorem C2_load_defaults_witness :
    (ensure_entry_keys blank_entry).category = some "Art" ∧
      (ensure_entry_keys blank_entry).tags = some [] ∧
      (ensure_entry_keys blank_entry).dream_progress = some (.int 0) := by
  have h := C2_load_defaults [blank_entry] 0 blank_entry
    (ensure_entry_keys blank_entry) rfl rfl
  exact ⟨h.1, h.2.2.1, h.2.2.2.2.2.2.1⟩

/-- C4: `next_id` returns 1 on the empty list; on a non-empty list it
returns `m + 1` where `m` is one of the (0-defaulted) ids and bounds all of
them — i.e. the maximum id plus one; on the list with ids 3 and 7 it
returns 8. -/
theorem C4_next_id :
    next_id [] = 1 ∧
    (∀ (x : Entry) (xs : List Entry),
      (∃ e ∈ x :: xs, next_id (x :: xs) = e.id.getD 0 + 1) ∧
      (∀ e ∈ x :: xs, e.id.getD 0 + 1 ≤ next_id (x :: xs))) ∧
    next_id [id3_entry, id7_entry] = 8 := by
  exact ⟨rfl, fun x xs => ⟨next_id_exists_mem x xs, next_id_ub x xs⟩, by decide⟩

/-- Witness for C4 at the two-entry list with ids 3 and 7. -/
theorem C4_next_id_witness :
    (∃ e ∈ [id3_entry, id7_entry], next_id [id3_entry, id7_entry] = e.id.getD 0 + 1) ∧
      id3_entry.id.getD 0 + 1 ≤ next_id [id3_entry, id7_entry] :=
  ⟨(C4_next_id.2.1 id3_entry [id7_entry]).1,
    (C4_next_id.2.1 id3_entry [id7_entry]).2 id3_entry (List.mem_cons_self _ _)⟩

/-- C10: `next_id` treats a record without an `id` key as id 0 (replacing
every absent id by an explicit 0 does not change the result), returns a
value strictly greater than every id actually present, hence appending a
new entry carrying `next_id entries` preserves uniqueness of the present
ids; and on a non-empty collection where no entry has an id it returns
1. -/
theorem C10_next_id_fresh (l : List Entry) :
    next_id l = next_id (l.map (fun e => { e with id := some (e.id.getD 0) })) ∧
    (∀ e ∈ l, ∀ i : Int, e.id = some i → i < next_id l) ∧
    ((l.filterMap (fun e => e.id)).Nodup →
      (l.filterMap (fun e => e.id) ++ [next_id l]).Nodup) ∧
    (l ≠ [] → (∀ e ∈ l, e.id = none) → next_id l = 1) := by
  have hgt : ∀ e ∈ l, ∀ i : Int, e.id = some i → i < next_id l := by
    intro e he i hi
    cases l with
    | nil => cases he
    | cons x xs =>
      have h := next_id_ub x xs e he
      rw [hi] at h
      simpa using lt_of_lt_of_le (lt_add_one i) h
  refine ⟨?_, hgt, ?_, ?_⟩
  · unfold next_id
    rw [List.map_map]
    rfl
  · intro h
    rw [List.nodup_append]
    refine ⟨h, List.nodup_singleton _, ?_⟩
    intro a ha hb
    rw [List.mem_singleton] at hb
    rcases List.mem_filterMap.mp ha with ⟨e, he, hei⟩
    exact absurd hb (ne_of_lt (hgt e he a hei))
  · intro hne hnone
    cases l with
    | nil => exact absurd rfl hne
    | cons x xs =>
      have hx : x.id.getD 0 = 0 := by rw [hnone x (List.mem_cons_self x xs)]; rfl
      have hnext : next_id (x :: xs) =
          (xs.map (fun e => e.id.getD 0)).foldl max (x.id.getD 0) + 1 := rfl
      have hz : (xs.map (fun e => e.id.getD 0)).foldl max (0 : Int) = 0 := by
        apply foldl_max_zeros
        intro y hy
        rcases List.mem_map.mp hy with ⟨e, he, rfl⟩
        rw [hnone e (List.mem_cons_of_mem x he)]
        rfl
      rw [hnext, hx, hz]
      rfl

/-- Witness for C10 on a mixed list (one id, one absent) and the all-absent
singleton. -/
theorem C10_next_id_fresh_witness :
    (3 : Int) < next_id [id3_entry, blank_entry] ∧
      ([id3_entry, blank_entry].filterMap (fun e => e.id) ++
        [next_id [id3_entry, blank_entry]]).Nodup ∧
      next_id [blank_entry] = 1 :=
  ⟨(C10_next_id_fresh [id3_entry, blank_entry]).2.1 id3_entry (by decide) 3 rfl,
    (C10_next_id_fresh [id3_entry, blank_entry]).2.2.1 (by decide),
    (C10_next_id_fresh [blank_entry]).2.2.2 (by decide)
      (fun e he => by rcases List.mem_singleton.mp he with rfl; rfl)⟩

/-- C1 counterexample: the entry with category `"Art"` and tag `"dreams"`
satisfies the claim's dreamboard rule (its lowercased tag is in the
six-keyword set), and it is in the gallery dream set, yet the dreamboard
view does not select it — the dreamboard keyword set lacks `"dreams"`. -/
theorem C1_counterexample :
    claimed_dreamboard_rule dreams_tag_entry ∧
      dreams_tag_entry ∈ [dreams_tag_entry] ∧
      dreams_tag_entry ∉ dreamboard_selected [dreams_tag_entry] ∧
      dreams_tag_entry ∈ compute_dream_entries [dreams_tag_entry] := by
  refine ⟨?_, by decide, by decide, by decide⟩
  exact Or.inr ⟨"dreams", by decide, by decide⟩

/-- C1 (amended): the gallery dream set selects an entry iff its lowercased
category is in `{goal, goals, dreams, dreamboard}` or some lowercased tag
is in the six-keyword set; the dreamboard view selects an entry iff its
lowercased category is in `{goal, goals}` or some lowercased tag is in the
FIVE-keyword set `{dream, goal, goals, manifest, manifestation}` (without
`"dreams"`); consequently an entry whose category lowercases to `dreams` or
`dreamboard` and which has no six-keyword tag is in the gallery dream set
but not in the dreamboard view. -/
theorem C1_dream_selection :
    (∀ (l : List Entry) (e : Entry),
      e ∈ compute_dream_entries l ↔ e ∈ l ∧
        (pyLower (e.category.getD "") ∈ ["goal", "goals", "dreams", "dreamboard"] ∨
          ∃ t ∈ (e.tags.getD []).map pyLower, t ∈ dream_keywords)) ∧
    (∀ (l : List Entry) (e : Entry),
      e ∈ dreamboard_selected l ↔ e ∈ l ∧
        (pyLower (e.category.getD "") ∈ ["goal", "goals"] ∨
          ∃ t ∈ (e.tags.getD []).map pyLower, t ∈ dreamboard_keywords)) ∧
    (∀ (l : List Entry) (e : Entry),
      (pyLower (e.category.getD "") = "dreams" ∨
        pyLower (e.category.getD "") = "dreamboard") →
      (¬ ∃ t ∈ (e.tags.getD []).map pyLower, t ∈ dream_keywords) →
      e ∈ l →
      e ∈ compute_dream_entries l ∧ e ∉ dreamboard_selected l) := by
  have hgal : ∀ (l : List Entry) (e : Entry),
      e ∈ compute_dream_entries l ↔ e ∈ l ∧
        (pyLower (e.category.getD "") ∈ ["goal", "goals", "dreams", "dreamboard"] ∨
          ∃ t ∈ (e.tags.getD []).map pyLower, t ∈ dream_keywords) := by
    intro l e
    unfold compute_dream_entries
    rw [List.mem_insertionSort, List.mem_filter, is_gallery_dream_iff]
  have hboard : ∀ (l : List Entry) (e : Entry),
      e ∈ dreamboard_selected l ↔ e ∈ l ∧
        (pyLower (e.category.getD "") ∈ ["goal", "goals"] ∨
          ∃ t ∈ (e.tags.getD []).map pyLower, t ∈ dreamboard_keywords) := by
    intro l e
    unfold dreamboard_selected
    rw [List.mem_filter, is_dreamboard_dream_iff]
  refine ⟨hgal, hboard, ?_⟩
  intro l e hcat hnotags hel
  constructor
  · refine (hgal l e).mpr ⟨hel, Or.inl ?_⟩
    rcases hcat with h | h <;> rw [h] <;> simp
  · intro hmem
    rcases ((hboard l e).mp hmem).2 with h | ⟨t, ht, htk⟩
    · rcases hcat with hc | hc <;> rw [hc] at h <;> revert h <;> decide
    · refine hnotags ⟨t, ht, ?_⟩
      revert htk
      simp only [dreamboard_keywords, dream_keywords, List.mem_cons, List.mem_singleton]
      tauto

/-- Witness for C1 at the entry with category `"Dreams"` and no tags. -/
theorem C1_dream_selection_witness :
    dreams_cat_entry ∈ compute_dream_entries [dreams_cat_entry] ∧
      dreams_cat_entry ∉ dreamboard_selected [dreams_cat_entry] :=
  C1_dream_selection.2.2 [dreams_cat_entry] dreams_cat_entry
    (Or.inl (by decide)) (by decide) (List.mem_singleton.mpr rfl)

/-- C3: the milestone view selects exactly the entries of the collection
whose coerced progress is at least 80 or which carry the (case-insensitive)
tag `milestone`; the result is sorted progress-descending with ties broken
by target date ascending (the empty string being the least string, it sorts
first); it is a permutation of the selected sublist; and on the
progress-90/50/85 fixtures with no milestone tags it is exactly the 90 and
85 entries in that order. -/
theorem C3_milestones :
    (∀ (l : List Entry) (e : Entry),
      e ∈ milestone_entries l ↔ e ∈ l ∧
        (80 ≤ milestone_progress e ∨ "milestone" ∈ (e.tags.getD []).map pyLower)) ∧
    (∀ l : List Entry, (milestone_entries l).Pairwise (fun a b =>
        milestone_progress b < milestone_progress a ∨
          (milestone_progress a = milestone_progress b ∧
            a.dream_target_date.getD "" ≤ b.dream_target_date.getD ""))) ∧
    (∀ l : List Entry, (milestone_entries l).Perm (l.filter is_milestone)) ∧
    milestone_entries [progress90_entry, progress50_entry, progress85_entry] =
      [progress90_entry, progress85_entry] := by
  refine ⟨?_, ?_, ?_, by decide⟩
  · intro l e
    unfold milestone_entries
    rw [List.mem_insertionSort, List.mem_filter, is_milestone_iff]
  · intro l
    exact List.sorted_insertionSort milestone_le (l.filter is_milestone)
  · intro l
    exact List.perm_insertionSort milestone_le (l.filter is_milestone)

/-- Witness for C3: the 85-progress fixture is selected into the milestone
view of the three-entry fixture list. -/
theorem C3_milestones_witness :
    progress85_entry ∈
      milestone_entries [progress90_entry, progress50_entry, progress85_entry] :=
  (C3_milestones.1 [progress90_entry, progress50_entry, progress85_entry]
    progress85_entry).mpr ⟨by decide, Or.inl (by decide)⟩

/-- Membership in `timeline_dated` in the claim's terms. -/
theorem mem_timeline_dated (l : List Entry) (e : Entry) :
    e ∈ timeline_dated l ↔ e ∈ l ∧ dateOf e ≠ "" ∧ 7 ≤ pyLen (dateOf e) := by
  unfold timeline_dated
  rw [List.mem_filter, List.mem_insertionSort, List.mem_filter,
    decide_eq_true_eq, decide_eq_true_eq]
  tauto

/-- `timeline_dated` is date-descending. -/
theorem timeline_dated_pairwise (l : List Entry) :
    (timeline_dated l).Pairwise (fun a b => dateOf b ≤ dateOf a) := by
  unfold timeline_dated
  exact (List.sorted_insertionSort date_desc _).filter _

/-- C5: the timeline view uses exactly the entries with a non-empty date of
length at least 7; each entry sits in the block of its year `date[0:4]` and
month `date[5:7]`; month blocks are labelled with the calendar name of
their month number; years are strictly descending, months within a year
strictly descending, entries within a month date-descending; and the
2024-03-01 / 2024-03-15 / 2023-12-01 fixtures produce years 2024 then
2023, with 2024 holding the single block "03" = March containing both
March entries newest first. -/
theorem C5_timeline :
    (∀ (l : List Entry) (e : Entry),
      (∃ yb ∈ timeline_years l, ∃ mb ∈ yb.months, e ∈ mb.entries) ↔
        (e ∈ l ∧ dateOf e ≠ "" ∧ 7 ≤ pyLen (dateOf e))) ∧
    (∀ l : List Entry, ∀ yb ∈ timeline_years l, ∀ mb ∈ yb.months, ∀ e ∈ mb.entries,
      yearOf e = yb.year ∧ monthOf e = mb.month) ∧
    (∀ l : List Entry, ∀ yb ∈ timeline_years l, ∀ mb ∈ yb.months,
      mb.month_name = month_name mb.month) ∧
    (∀ l : List Entry,
      ((timeline_years l).map (fun yb => yb.year)).Pairwise (fun a b => b < a)) ∧
    (∀ l : List Entry, ∀ yb ∈ timeline_years l,
      (yb.months.map (fun mb => mb.month)).Pairwise (fun a b => b < a)) ∧
    (∀ l : List Entry, ∀ yb ∈ timeline_years l, ∀ mb ∈ yb.months,
      mb.entries.Pairwise (fun a b => dateOf b ≤ dateOf a)) ∧
    timeline_years [march1_entry, march15_entry, december_entry] =
      [YearBlock.mk "2024" [MonthBlock.mk "03" "March" [march15_entry, march1_entry]],
       YearBlock.mk "2023" [MonthBlock.mk "12" "December" [december_entry]]] := by
  have desc_strict : ∀ xs : List String,
      (List.insertionSort string_desc xs.dedup).Pairwise (fun a b => b < a) := by
    intro xs
    have hsorted : (List.insertionSort string_desc xs.dedup).Pairwise string_desc :=
      List.sorted_insertionSort string_desc xs.dedup
    have hnodup : (List.insertionSort string_desc xs.dedup).Pairwise (· ≠ ·) :=
      (List.perm_insertionSort string_desc xs.dedup).nodup_iff.mpr (List.nodup_dedup xs)
    exact (hsorted.and hnodup).imp (fun h => lt_of_le_of_ne h.1 (Ne.symm h.2))
  refine ⟨?_, ?_, ?_, ?_, ?_, ?_, by decide⟩
  · intro l e
    constructor
    · rintro ⟨yb, hyb, mb, hmb, he⟩
      rcases List.mem_map.mp hyb with ⟨y, _, rfl⟩
      rcases List.mem_map.mp hmb with ⟨m, _, rfl⟩
      exact (mem_timeline_dated l e).mp (List.mem_filter.mp (List.mem_filter.mp he).1).1
    · rintro ⟨hel, hne, hlen⟩
      have hD : e ∈ timeline_dated l := (mem_timeline_dated l e).mpr ⟨hel, hne, hlen⟩
      have hY : e ∈ timeline_in_year l (yearOf e) :=
        List.mem_filter.mpr ⟨hD, by simp⟩
      refine ⟨timeline_year_block l (yearOf e), ?_,
        timeline_month_block l (yearOf e) (monthOf e), ?_, ?_⟩
      · exact List.mem_map_of_mem _ ((List.mem_insertionSort string_desc).mpr
          (List.mem_dedup.mpr (List.mem_map_of_mem yearOf hD)))
      · exact List.mem_map_of_mem _ ((List.mem_insertionSort string_desc).mpr
          (List.mem_dedup.mpr (List.mem_map_of_mem monthOf hY)))
      · exact List.mem_filter.mpr ⟨hY, by simp⟩
  · intro l yb hyb mb hmb e he
    rcases List.mem_map.mp hyb with ⟨y, _, rfl⟩
    rcases List.mem_map.mp hmb with ⟨m, _, rfl⟩
    have h1 := List.mem_filter.mp he
    have h2 := List.mem_filter.mp h1.1
    exact ⟨of_decide_eq_true h2.2, of_decide_eq_true h1.2⟩
  · intro l yb hyb mb hmb
    rcases List.mem_map.mp hyb with ⟨y, _, rfl⟩
    rcases List.mem_map.mp hmb with ⟨m, _, rfl⟩
    rfl
  · intro l
    have hmap : (timeline_years l).map (fun yb => yb.year)
        = List.insertionSort string_desc ((timeline_dated l).map yearOf).dedup := by
      unfold timeline_years
      rw [List.map_map]
      exact (List.map_congr_left (fun y _ => rfl)).trans (List.map_id _)
    rw [hmap]
    exact desc_strict _
  · intro l yb hyb
    rcases List.mem_map.mp hyb with ⟨y, _, rfl⟩
    have hmap : (timeline_year_block l y).months.map (fun mb => mb.month)
        = List.insertionSort string_desc ((timeline_in_year l y).map monthOf).dedup := by
      unfold timeline_year_block
      rw [List.map_map]
      exact (List.map_congr_left (fun m _ => rfl)).trans (List.map_id _)
    rw [hmap]
    exact desc_strict _
  · intro l yb hyb mb hmb
    rcases List.mem_map.mp hyb with ⟨y, _, rfl⟩
    rcases List.mem_map.mp hmb with ⟨m, _, rfl⟩
    exact ((timeline_dated_pairwise l).filter _).filter _

/-- Witness for C5: the December fixture lands in some month block of the
three-fixture timeline. -/
theorem C5_timeline_witness :
    ∃ yb ∈ timeline_years [march1_entry, march15_entry, december_entry],
      ∃ mb ∈ yb.months, december_entry ∈ mb.entries :=
  (C5_timeline.1 [march1_entry, march15_entry, december_entry]
    december_entry).mpr ⟨by decide, by decide, by decide⟩

/-- C7: when no entry of the loaded collection carries the requested id,
the detail and edit handlers answer with the 404 response, while delete
still redirects and leaves the stored collection (as loaded) unchanged;
and unconditionally, delete rewrites the store as exactly the entries whose
id differs from the given one. -/
theorem C7_missing_id_handlers (s : Store) (entry_id : Int) (f : EditForm) :
    ((∀ e ∈ load_entries s, e.id ≠ some entry_id) →
      entry_detail s entry_id = Response.notFound ∧
      (edit_entry s entry_id f).2 = Response.notFound ∧
      load_entries (delete_entry s entry_id).1 = load_entries s ∧
      (delete_entry s entry_id).2 = Response.redirect "index") ∧
    (delete_entry s entry_id).1 =
      save_entries ((load_entries s).filter (fun e => decide (e.id ≠ some entry_id))) := by
  constructor
  · intro h
    have hfind : (load_entries s).find? (fun e => e.id == some entry_id) = none :=
      List.find?_eq_none.mpr (fun e he => by simpa using h e he)
    have hany : (load_entries s).any (fun e => e.id == some entry_id) = false := by
      rw [List.any_eq_false]
      intro e he
      simpa using h e he
    have hfilter : (load_entries s).filter (fun e => e.id != some entry_id)
        = load_entries s := by
      rw [List.filter_eq_self]
      intro e he
      simpa using h e he
    refine ⟨?_, ?_, ?_, rfl⟩
    · unfold entry_detail
      rw [hfind]
    · simp [edit_entry, hany]
    · show load_entries (save_entries
          ((load_entries s).filter (fun e => e.id != some entry_id))) = load_entries s
      rw [hfilter]
      exact load_save_of_ensured _ (fun e he => loaded_ensure_eq he)
  · show save_entries _ = save_entries _
    unfold save_entries
    congr 1
    apply List.filter_congr
    intro e _
    by_cases hc : e.id = some entry_id <;> simp [hc]

/-- Witness for C7: the single-entry store (id 1) queried with id 2. -/
theorem C7_missing_id_handlers_witness :
    entry_detail one_entry_store 2 = Response.notFound ∧
      load_entries (delete_entry one_entry_store 2).1 = load_entries one_entry_store :=
  ⟨((C7_missing_id_handlers one_entry_store 2 sample_form).1 (by decide)).1,
    ((C7_missing_id_handlers one_entry_store 2 sample_form).1 (by decide)).2.2.1⟩

/-- The edit update never touches `id` or `created_at`. -/
theorem update_entry_id_created_at (e : Entry) (f : EditForm) :
    (update_entry (edit_setdefaults e) f).id = e.id ∧
      (update_entry (edit_setdefaults e) f).created_at = e.created_at := by
  simp [update_entry, edit_setdefaults]

/-- `edit_first` preserves the length of the collection. -/
theorem edit_first_length (l : List Entry) (eid : Int) (f : EditForm) :
    (edit_first l eid f).length = l.length := by
  induction l with
  | nil => rfl
  | cons x rest ih => by_cases h : x.id = some eid <;> simp [edit_first, h, ih]

/-- `edit_first` preserves every position's `id` and `created_at`. -/
theorem edit_first_preserves (l : List Entry) (eid : Int) (f : EditForm) :
    ∀ i : Nat,
      ((edit_first l eid f)[i]?).map (fun e => e.id) = (l[i]?).map (fun e => e.id) ∧
      ((edit_first l eid f)[i]?).map (fun e => e.created_at)
        = (l[i]?).map (fun e => e.created_at) := by
  induction l with
  | nil => intro i; exact ⟨rfl, rfl⟩
  | cons x rest ih =>
    intro i
    by_cases h : x.id = some eid
    · cases i with
      | zero =>
        refine ⟨?_, ?_⟩ <;>
          simp [edit_first, h, (update_entry_id_created_at x f).1,
            (update_entry_id_created_at x f).2]
      | succ n => simp [edit_first, h]
    · cases i with
      | zero => simp [edit_first, h]
      | succ n => simpa [edit_first, h] using ih n

/-- `edit_first` leaves every entry with a different id untouched. -/
theorem edit_first_frame (l : List Entry) (eid : Int) (f : EditForm) :
    ∀ (i : Nat) (e : Entry), l[i]? = some e → e.id ≠ some eid →
      (edit_first l eid f)[i]? = some e := by
  induction l with
  | nil => intro i e he; rw [List.getElem?_nil] at he; cases he
  | cons x rest ih =>
    intro i e he hne
    by_cases h : x.id = some eid
    · cases i with
      | zero =>
        rw [List.getElem?_cons_zero] at he
        cases he
        exact absurd h hne
      | succ n =>
        rw [List.getElem?_cons_succ] at he
        simp only [edit_first, if_pos h, List.getElem?_cons_succ]
        exact he
    · cases i with
      | zero =>
        rw [List.getElem?_cons_zero] at he
        cases he
        simp [edit_first, h]
      | succ n =>
        rw [List.getElem?_cons_succ] at he
        simp only [edit_first, if_neg h, List.getElem?_cons_succ]
        exact ih n e he hne

/-- The edit update writes all seven load-defaulted keys, so defaulting is a
no-op on it. -/
theorem ensure_update_entry (e : Entry) (f : EditForm) :
    ensure_entry_keys (update_entry (edit_setdefaults e) f)
      = update_entry (edit_setdefaults e) f := by
  simp [ensure_entry_keys, update_entry, edit_setdefaults]

/-- Members of `edit_first l` are members of `l` or the updated entry. -/
theorem mem_edit_first (l : List Entry) (eid : Int) (f : EditForm) :
    ∀ e ∈ edit_first l eid f,
      e ∈ l ∨ ∃ x ∈ l, e = update_entry (edit_setdefaults x) f := by
  induction l with
  | nil => intro e he; cases he
  | cons x rest ih =>
    intro e he
    by_cases h : x.id = some eid
    · rw [edit_first, if_pos h] at he
      rcases List.mem_cons.mp he with rfl | he
      · exact Or.inr ⟨x, List.mem_cons_self x rest, rfl⟩
      · exact Or.inl (List.mem_cons_of_mem x he)
    · rw [edit_first, if_neg h] at he
      rcases List.mem_cons.mp he with rfl | he
      · exact Or.inl (List.mem_cons_self e rest)
      · rcases ih e he with h' | ⟨y, hy, rfl⟩
        · exact Or.inl (List.mem_cons_of_mem x h')
        · exact Or.inr ⟨y, List.mem_cons_of_mem x hy, rfl⟩

/-- C9: for every store, id and edit submission, the edit handler preserves
the collection's length, leaves every entry's `id` and `created_at` exactly
as loaded, and leaves every entry whose id differs from the edited one
entirely unchanged. -/
theorem C9_edit_frame (s : Store) (eid : Int) (f : EditForm) :
    (load_entries (edit_entry s eid f).1).length = (load_entries s).length ∧
    (∀ i : Nat,
      ((load_entries (edit_entry s eid f).1)[i]?).map (fun e => e.id)
        = ((load_entries s)[i]?).map (fun e => e.id) ∧
      ((load_entries (edit_entry s eid f).1)[i]?).map (fun e => e.created_at)
        = ((load_entries s)[i]?).map (fun e => e.created_at)) ∧
    (∀ (i : Nat) (e : Entry), (load_entries s)[i]? = some e → e.id ≠ some eid →
      (load_entries (edit_entry s eid f).1)[i]? = some e) := by
  by_cases hc : (load_entries s).any (fun e => e.id == some eid) = true
  · have h2 : load_entries (edit_entry s eid f).1
        = edit_first (load_entries s) eid f := by
      have h1 : (edit_entry s eid f).1
          = save_entries (edit_first (load_entries s) eid f) := by
        simp [edit_entry, hc]
      rw [h1]
      apply load_save_of_ensured
      intro e he
      rcases mem_edit_first (load_entries s) eid f e he with h' | ⟨x, _, rfl⟩
      · exact loaded_ensure_eq h'
      · exact ensure_update_entry x f
    rw [h2]
    exact ⟨edit_first_length _ _ _, edit_first_preserves _ _ _, edit_first_frame _ _ _⟩
  · have h1 : (edit_entry s eid f).1 = s := by simp [edit_entry, hc]
    rw [h1]
    exact ⟨rfl, fun i => ⟨rfl, rfl⟩, fun i e he _ => he⟩

/-- Witness for C9: editing id 1 in a two-entry store preserves position 0's
id and leaves the id-3 entry untouched. -/
theorem C9_edit_frame_witness :
    ((load_entries (edit_entry (Store.good [march1_entry, december_entry]) 1
        sample_form).1)[0]?).map (fun e => e.id)
      = ((load_entries (Store.good [march1_entry, december_entry]))[0]?).map
          (fun e => e.id) ∧
    (load_entries (edit_entry (Store.good [march1_entry, december_entry]) 1
        sample_form).1)[1]? = some (ensure_entry_keys december_entry) :=
  ⟨((C9_edit_frame (Store.good [march1_entry, december_entry]) 1
      sample_form).2.1 0).1,
    (C9_edit_frame (Store.good [march1_entry, december_entry]) 1
      sample_form).2.2 1 (ensure_entry_keys december_entry) rfl (by decide)⟩

end AliveGallery
